import Mathlib

/-!
Verification of the EdgeVision Nexus ZED edge node (`src/cv_edge/zed_app.py`)
against its natural-language specification.

The development shallowly embeds the parts of `zed_app.py` that the claims
talk about:

* the per-cycle detection counting / annotation code of `grab_loop`
  (lines 196-246),
* the reconnect state machine of `grab_loop` (lines 148-276),
* the `/metrics` handler (lines 386-389),
* the MJPEG generator `generate_mjpeg` (lines 305-341) and its
  attach/detach accounting on `active_streams`,
* the `frame_cond` publish/wait broadcast protocol connecting `grab_loop`
  to the MJPEG consumers (lines 238-242 and 316-319).

Python dicts are modelled as insertion-ordered association lists, Python
floats occurring only in comparisons as rationals, and Python ints as `Int`
(they are unbounded and may go negative).
-/

namespace ZedApp

/-! ## Python dictionaries

`frame_data['counts']` is a Python `dict`.  We model a dict as an
insertion-ordered association list: assignment replaces the value of an
existing key in place and appends a fresh key at the end, exactly as CPython
does. -/

/-- Lookup with default, as in `d.get(k, dflt)` / `d[k]`. -/
def dictGet {α : Type} : List (String × α) → String → α → α
  | [], _, dflt => dflt
  | (k', v') :: rest, k, dflt => if k' = k then v' else dictGet rest k dflt

/-- Assignment `d[k] = v`: replace in place if present, append otherwise. -/
def dictSet {α : Type} : List (String × α) → String → α → List (String × α)
  | [], k, v => [(k, v)]
  | (k', v') :: rest, k, v =>
      if k' = k then (k, v) :: rest else (k', v') :: dictSet rest k v

/-- The keys of a dict, in insertion order. -/
def dictKeys {α : Type} (m : List (String × α)) : List String :=
  m.map Prod.fst

/-! ## Detections and per-cycle processing (`grab_loop` lines 196-246) -/

/-- One detection reported by the SDK (`obj` in the source): a confidence,
a raw integer class label, and a 2D bounding box given as a list of
coordinate pairs.  Confidence is a rational; the source only ever compares
it against the literal `0.5`, which is exactly representable. -/
structure Detection where
  confidence : ℚ
  rawLabel : ℤ
  bbox2d : List (ℚ × ℚ)
deriving DecidableEq, Repr

/-- Python `int(x)` on a float: truncation toward zero. -/
def pyInt (q : ℚ) : ℤ :=
  if 0 ≤ q then ⌊q⌋ else ⌈q⌉

/-- Python list indexing `l[i]`: raises `IndexError` when out of range. -/
def pyIndex {α : Type} (l : List α) (i : ℕ) : Except String α :=
  match l.get? i with
  | some x => Except.ok x
  | none => Except.error "IndexError"

/-- Label resolution, lines 205-212.  `enumName raw` models
`str(sl.OBJECT_CLASS(raw_label)).split('.')[-1]`; `none` models the
`ValueError`/`AttributeError` path taken when the enum conversion fails, in
which case the source falls back to hard-coded labels. -/
def resolveLabel (enumName : ℤ → Option String) (raw : ℤ) : String :=
  match enumName raw with
  | some s => s
  | none =>
      if raw = 0 then "Person"
      else if raw = 1 then "Vehicle"
      else "Class_" ++ toString raw

/-- An OpenCV color tuple `(c0, c1, c2)` as passed to `cv2.rectangle` /
`cv2.putText`.  The frame it is drawn on is explicitly converted to BGR
channel order (line 188, `cv2.COLOR_RGBA2BGR`), so channel `c0` is the blue
channel of the rendered image, `c1` the green channel and `c2` the red
channel. -/
structure PixelColor where
  c0 : ℕ
  c1 : ℕ
  c2 : ℕ
deriving DecidableEq, Repr

/-- Character-list prefix test. -/
def charsStartWith : List Char → List Char → Bool
  | _, [] => true
  | [], _ :: _ => false
  | h :: hs, n :: ns => h = n && charsStartWith hs ns

/-- Character-list contiguous-subsequence test. -/
def charsContain : List Char → List Char → Bool
  | [], needle => needle.isEmpty
  | h :: rest, needle => charsStartWith (h :: rest) needle || charsContain rest needle

/-- Substring test, Python's `needle in hay` on strings. -/
def containsSub (hay needle : String) : Bool :=
  charsContain hay.toList needle.toList

/-- Color choice, lines 217-223: the tuples of the source, verbatim. -/
def chooseColor (labelText : String) : PixelColor :=
  if containsSub labelText "Person" then ⟨0, 255, 0⟩
  else if containsSub labelText "Vehicle" then ⟨255, 0, 0⟩
  else ⟨0, 0, 255⟩

/-- One `cv2.rectangle` + `cv2.putText` pair drawn onto the frame copy
(lines 225-236). -/
structure DrawOp where
  pt1 : ℤ × ℤ
  pt2 : ℤ × ℤ
  color : PixelColor
  labelText : String
  confidence : ℚ
deriving DecidableEq, Repr

/-- The body of the `for obj in objects.object_list` loop, lines 201-236:
a qualifying detection (confidence strictly above 0.5) is counted and, when
its box has at least two points, drawn; `bbox_2d[0]` and `bbox_2d[2]` raise
`IndexError` when absent, which the source lets escape to the outer
exception handler of `grab_loop`. -/
def detectStep (enumName : ℤ → Option String)
    (acc : List (String × ℕ) × List DrawOp) (obj : Detection) :
    Except String (List (String × ℕ) × List DrawOp) :=
  if 1/2 < obj.confidence then
    let labelText := resolveLabel enumName obj.rawLabel
    let counts := dictSet acc.1 labelText (dictGet acc.1 labelText 0 + 1)
    let color := chooseColor labelText
    if 2 ≤ obj.bbox2d.length then
      match pyIndex obj.bbox2d 0, pyIndex obj.bbox2d 2 with
      | Except.ok p0, Except.ok p2 =>
          let pt1 : ℤ × ℤ := (pyInt p0.1, pyInt p0.2)
          let pt2 : ℤ × ℤ := (pyInt p2.1, pyInt p2.2)
          Except.ok (counts, acc.2 ++ [⟨pt1, pt2, color, labelText, obj.confidence⟩])
      | Except.error e, _ => Except.error e
      | _, Except.error e => Except.error e
    else
      Except.ok (counts, acc.2)
  else
    Except.ok acc

/-- Folding `detectStep` over the object list (the `for` loop itself). -/
def processDetections (enumName : ℤ → Option String) :
    List Detection → List (String × ℕ) × List DrawOp →
    Except String (List (String × ℕ) × List DrawOp)
  | [], acc => Except.ok acc
  | obj :: rest, acc =>
      match detectStep enumName acc obj with
      | Except.ok acc' => processDetections enumName rest acc'
      | Except.error e => Except.error e

/-- One capture cycle's counting/annotation, lines 197-236: `counts` starts
out as a fresh empty dict every cycle; the loop body only runs when
`objects.is_new` holds. -/
def runCycle (enumName : ℤ → Option String) (isNew : Bool)
    (objs : List Detection) :
    Except String (List (String × ℕ) × List DrawOp) :=
  if isNew then processDetections enumName objs ([], []) else Except.ok ([], [])

/-- The labels of the qualifying (confidence strictly above 0.5) detections
of a cycle, in capture order. -/
def qualLabels (enumName : ℤ → Option String) (objs : List Detection) :
    List String :=
  (objs.filter (fun o => decide (1/2 < o.confidence))).map
    (fun o => resolveLabel enumName o.rawLabel)

/-! ## The shared `frame_data` structure and the `/metrics` handler -/

/-- A Python value stored in the counts dict: the capture loop stores ints,
but a dict is heterogeneous and can also hold strings. -/
inductive PyVal where
  | int (n : ℤ)
  | str (s : String)
deriving DecidableEq, Repr

/-- The annotated frame: the raw captured image (identified abstractly) plus
the drawing operations applied to its copy. -/
structure Frame where
  rawImage : ℕ
  drawn : List DrawOp
deriving DecidableEq, Repr

/-- The global `frame_data` dict of lines 35-39: latest annotated frame,
detection counts and capture timestamp. -/
structure FrameData where
  frame : Option Frame
  counts : List (String × PyVal)
  timestamp : String
deriving DecidableEq, Repr

/-- The `/metrics` handler, lines 386-389.  In the source,
`response = frame_data.get('counts', {})` binds `response` to the very dict
object stored in `frame_data` (Python dicts are passed by reference), so the
following `response['timestamp'] = frame_data['timestamp']` writes through
that alias into the shared state.  The function returns the frame data as it
is after the request together with the JSON response body. -/
def metricsHandler (fd : FrameData) : FrameData × List (String × PyVal) :=
  let response := dictSet fd.counts "timestamp" (PyVal.str fd.timestamp)
  ({ fd with counts := response }, response)

/-! ## The capture loop and reconnect state machine (`grab_loop`) -/

/-- The mutable state carried across iterations of the `while True:` loop of
`grab_loop`: whether the `camera` global currently holds an open camera,
the `consecutive_failures` counter, the `frame_count` counter, and the
shared `frame_data`. -/
structure LoopState where
  cameraOpen : Bool
  consecutiveFailures : ℕ
  frameCount : ℕ
  bus : FrameData
deriving DecidableEq, Repr

/-- The external world's contribution to one loop iteration: whether
`init_zed_camera()` would succeed, whether `camera.grab()` returns SUCCESS,
the value of `active_streams` read under `stream_lock`, and the SDK's
retrieved data (`objects.is_new`, the object list, the image and the
wall-clock timestamp). -/
structure IterInput where
  initOk : Bool
  grabOk : Bool
  activeStreams : ℤ
  isNew : Bool
  objs : List Detection
  rawImage : ℕ
  timestamp : String
deriving Repr

/-- Observable actions of one `grab_loop` iteration, in program order. -/
inductive Event where
  | openAttempt
  | closeCam
  | sleepSec (q : ℚ)
  | publish (f : Frame) (counts : List (String × ℕ)) (ts : String)
deriving DecidableEq, Repr

/-- Lines 167-263: the part of a `grab_loop` iteration that starts at
`camera.grab(runtime_params)`, for an open camera.  On SUCCESS the counters
are updated, the loop sleeps 0.1s or 0.5s depending on `active_streams`,
the cycle's detections are counted and drawn and the result is published
into `frame_data`; an `IndexError` escaping the cycle is caught by the
outer handler (lines 265-276), which closes the camera and sleeps 5s.  On a
failed grab the failure counter is incremented; at 10 consecutive failures
the camera is closed, the counter reset and a 1s cooldown taken, otherwise
the loop retries after 0.1s. -/
def grabPhase (enumName : ℤ → Option String) (st : LoopState)
    (inp : IterInput) : LoopState × List Event :=
  if inp.grabOk then
    let st1 : LoopState :=
      { st with frameCount := st.frameCount + 1, consecutiveFailures := 0 }
    let sleepDur : ℚ := if 0 < inp.activeStreams then 1/10 else 1/2
    match runCycle enumName inp.isNew inp.objs with
    | Except.ok (counts, ops) =>
        let fr : Frame := ⟨inp.rawImage, ops⟩
        ({ st1 with bus :=
            ⟨some fr, counts.map (fun p => (p.1, PyVal.int (p.2 : ℤ))), inp.timestamp⟩ },
         [Event.sleepSec sleepDur, Event.publish fr counts inp.timestamp])
    | Except.error _ =>
        ({ st1 with cameraOpen := false },
         [Event.sleepSec sleepDur, Event.closeCam, Event.sleepSec 5])
  else
    let cf := st.consecutiveFailures + 1
    if 10 ≤ cf then
      ({ st with cameraOpen := false, consecutiveFailures := 0 },
       [Event.closeCam, Event.sleepSec 1])
    else
      ({ st with consecutiveFailures := cf }, [Event.sleepSec (1/10)])

/-- One full iteration of the `while True:` loop (lines 152-276).  When the
camera is not open, `init_zed_camera()` is attempted (lines 155-164): on
failure the iteration ends with a 5s backoff, on success the failure counter
is reset and control falls through to the grab. -/
def loopIter (enumName : ℤ → Option String) (st : LoopState)
    (inp : IterInput) : LoopState × List Event :=
  if st.cameraOpen then
    grabPhase enumName st inp
  else if inp.initOk then
    let r := grabPhase enumName
      { st with cameraOpen := true, consecutiveFailures := 0 } inp
    (r.1, Event.openAttempt :: r.2)
  else
    (st, [Event.openAttempt, Event.sleepSec 5])

/-- The iteration input describing a failed grab with no reconnect success
and no subscribers. -/
def failInput : IterInput :=
  { initOk := false, grabOk := false, activeStreams := 0, isNew := false,
    objs := [], rawImage := 0, timestamp := "" }

/-- Run `n` consecutive failed-grab iterations, collecting the events. -/
def runFails (enumName : ℤ → Option String) : LoopState → ℕ → LoopState × List Event
  | st, 0 => (st, [])
  | st, n + 1 =>
      let r1 := loopIter enumName st failInput
      let r2 := runFails enumName r1.1 n
      (r2.1, r1.2 ++ r2.2)

/-! ## StreamSession lifecycle (`generate_mjpeg`, lines 305-341)

The generator increments `active_streams` under `stream_lock` on entry
(lines 308-310) and decrements it in the `finally:` block (lines 337-341).
A `finally:` block of a generator body runs exactly once, whichever way the
body exits: normal completion, `break` out of the loop after an exception,
or `GeneratorExit` thrown into the generator when the transport closes.
`attachOp`/`detachOp` are the literal counter updates; the transition
system below describes the interleaved executions of any number of
sessions, each attaching once on entry and detaching once on exit. -/

/-- Line 309: `active_streams += 1`. -/
def attachOp (n : ℤ) : ℤ := n + 1

/-- Line 340: `active_streams -= 1` — a bare decrement with no clamping. -/
def detachOp (n : ℤ) : ℤ := n - 1

/-- Global accounting state for the MJPEG sessions: the shared counter, the
sessions currently inside their `try` body, the sessions that already ran
their `finally`, and how many attaches/detaches have happened. -/
structure StreamAcct where
  activeStreams : ℤ
  attached : Finset ℕ
  finished : Finset ℕ
  nAttach : ℕ
  nDetach : ℕ
deriving DecidableEq

/-- The initial accounting state: no sessions, counter 0 (line 40). -/
def initAcct : StreamAcct := ⟨0, ∅, ∅, 0, 0⟩

/-- A step of the session lifecycle: a fresh session attaches (runs lines
308-310), or an attached session exits along any path and runs its
`finally` detach (lines 337-341) exactly once. -/
inductive AcctStep : StreamAcct → StreamAcct → Prop
  | attach (σ σ' : StreamAcct) (s : ℕ) (h1 : s ∉ σ.attached) (h2 : s ∉ σ.finished)
      (heq : σ' = ⟨attachOp σ.activeStreams, insert s σ.attached, σ.finished,
        σ.nAttach + 1, σ.nDetach⟩) :
      AcctStep σ σ'
  | detach (σ σ' : StreamAcct) (s : ℕ) (h : s ∈ σ.attached)
      (heq : σ' = ⟨detachOp σ.activeStreams, σ.attached.erase s,
        insert s σ.finished, σ.nAttach, σ.nDetach + 1⟩) :
      AcctStep σ σ'

/-- Reachable accounting states. -/
inductive AcctReach : StreamAcct → Prop
  | init : AcctReach initAcct
  | step {σ σ' : StreamAcct} : AcctReach σ → AcctStep σ σ' → AcctReach σ'

/-! ## The session streaming loop (`generate_mjpeg`, lines 313-336) -/

/-- What one pass of the `while True:` body observes. -/
inductive SessionOutcome where
  | frameNone
  | encodeOk
  | encodeRetFalse
  | raisedException
  | clientDisconnected
deriving DecidableEq, Repr

/-- How one pass of the loop body ends. -/
inductive SessionExit where
  | continueLoop
  | breakLoop
  | generatorClosed
deriving DecidableEq, Repr

/-- The control flow of one pass of the loop body, lines 313-336, paired
with whether a frame chunk was emitted: a `None` frame is skipped
(line 321), a successful encode yields a chunk (lines 325-331), a `False`
return flag from `cv2.imencode` skips the frame (line 325), an `Exception`
raised inside the body is caught at line 333 and `break`s out of the loop
(line 336), and a transport disconnect raises `GeneratorExit` at the
`yield`, which `except Exception` does not catch, ending the generator. -/
def sessionIterResult : SessionOutcome → SessionExit × Bool
  | SessionOutcome.frameNone => (SessionExit.continueLoop, false)
  | SessionOutcome.encodeOk => (SessionExit.continueLoop, true)
  | SessionOutcome.encodeRetFalse => (SessionExit.continueLoop, false)
  | SessionOutcome.raisedException => (SessionExit.breakLoop, false)
  | SessionOutcome.clientDisconnected => (SessionExit.generatorClosed, false)

/-- Run the session loop over a list of per-pass outcomes: returns the
number of chunks emitted and the outcome that ended the loop, if any. -/
def sessionRun : List SessionOutcome → ℕ × Option SessionOutcome
  | [] => (0, none)
  | o :: rest =>
      match sessionIterResult o with
      | (SessionExit.continueLoop, emitted) =>
          let r := sessionRun rest
          ((if emitted then 1 else 0) + r.1, r.2)
      | (SessionExit.breakLoop, _) => (0, some o)
      | (SessionExit.generatorClosed, _) => (0, some o)

/-! ## The `frame_cond` publish/wait broadcast protocol

`grab_loop` publishes under `frame_cond` and calls `notify_all()`
(lines 238-242); each MJPEG consumer does `frame_cond.wait()` and then
reads the *current* `frame_data['frame']` after reacquiring the lock
(lines 316-319).  We model the protocol as a deterministic transition
system over scheduler action traces.  Snapshots are numbered by publish
order (`version`; 0 means nothing published yet).  A consumer is
`detachedC` until it attaches, `idle` while holding/competing for the lock
outside `wait`, `waiting` while blocked inside `wait()`, and `notified`
after a `notify_all` but before it has reacquired the lock.  Waking reads
the version current at wake time — not the version that triggered the
notification — which is exactly the source's re-read of `frame_data` after
`wait()` returns.  CPython condition variables do not wake spuriously, so
`wake` requires `notified`. -/

/-- Consumer phase in the `frame_cond` protocol. -/
inductive Phase where
  | detachedC
  | idle
  | waiting
  | notified
deriving DecidableEq, Repr

/-- State of the publish/wait protocol.  `observedRev c` lists the snapshot
versions consumer `c` has read, newest first.  `attachVersion c` is the
version that was current when `c` attached. -/
structure BusState where
  version : ℕ
  phase : ℕ → Phase
  observedRev : ℕ → List ℕ
  attachVersion : ℕ → ℕ

/-- Pointwise function update on consumer indices. -/
def upd {α : Type} (f : ℕ → α) (c : ℕ) (v : α) : ℕ → α :=
  fun d => if d = c then v else f d

/-- Scheduler actions: a consumer attaches, a consumer enters `wait()`, the
producer publishes and broadcasts (`notify_all`), a notified consumer
reacquires the lock and reads the current snapshot. -/
inductive Act where
  | attachC (c : ℕ)
  | beginWait (c : ℕ)
  | publishA
  | wakeC (c : ℕ)
deriving DecidableEq, Repr

/-- Nothing published yet, no consumers attached. -/
def initBus : BusState :=
  ⟨0, fun _ => Phase.detachedC, fun _ => [], fun _ => 0⟩

/-- One scheduler step; actions whose guard does not hold are no-ops. -/
def busStep (σ : BusState) : Act → BusState
  | Act.attachC c =>
      if σ.phase c = Phase.detachedC then
        { σ with phase := upd σ.phase c Phase.idle,
                 attachVersion := upd σ.attachVersion c σ.version }
      else σ
  | Act.beginWait c =>
      if σ.phase c = Phase.idle then
        { σ with phase := upd σ.phase c Phase.waiting }
      else σ
  | Act.publishA =>
      { σ with version := σ.version + 1,
               phase := fun d =>
                 if σ.phase d = Phase.waiting then Phase.notified else σ.phase d }
  | Act.wakeC c =>
      if σ.phase c = Phase.notified then
        { σ with phase := upd σ.phase c Phase.idle,
                 observedRev := upd σ.observedRev c (σ.version :: σ.observedRev c) }
      else σ

/-- Run a trace of scheduler actions from a state. -/
def busRun (σ : BusState) (acts : List Act) : BusState :=
  acts.foldl busStep σ

/-- Invariant of the publish/wait protocol. -/
structure BusInv (σ : BusState) : Prop where
  sortedObs : ∀ c, List.Sorted (· > ·) (σ.observedRev c)
  obsLe : ∀ c, ∀ v ∈ σ.observedRev c, v ≤ σ.version
  notifiedObsLt : ∀ c, σ.phase c = Phase.notified → ∀ v ∈ σ.observedRev c, v < σ.version
  attachLe : ∀ c, σ.attachVersion c ≤ σ.version
  attachLtObs : ∀ c, ∀ v ∈ σ.observedRev c, σ.attachVersion c < v
  notifiedAttachLt : ∀ c, σ.phase c = Phase.notified → σ.attachVersion c < σ.version
  detachedObs : ∀ c, σ.phase c = Phase.detachedC → σ.observedRev c = []

/-- Relative invariant for a consumer that is waiting in state `σ₀` with
`V = σ₀.version` and `base = σ₀.observedRev c`: every snapshot it observes
from then on was published strictly after `V`. -/
def WaitRel (V : ℕ) (base : List ℕ) (c : ℕ) (σ : BusState) : Prop :=
  V ≤ σ.version ∧
  (∃ pre, σ.observedRev c = pre ++ base ∧ ∀ v ∈ pre, V < v) ∧
  (σ.phase c = Phase.notified → V < σ.version)

/-! ## Rendered-color predicates and concrete demonstration inputs

The color tuples of lines 218-223 are applied to `frame_bgr`, which the
source converts to BGR channel order at line 188, so a rendered color is
read off a `PixelColor` as blue = `c0`, green = `c1`, red = `c2`. -/

/-- Rendered pure green on the BGR frame. -/
def isGreen (c : PixelColor) : Prop := c.c0 = 0 ∧ c.c1 = 255 ∧ c.c2 = 0

/-- Rendered pure red on the BGR frame. -/
def isRed (c : PixelColor) : Prop := c.c0 = 0 ∧ c.c1 = 0 ∧ c.c2 = 255

/-- Rendered pure blue on the BGR frame. -/
def isBlue (c : PixelColor) : Prop := c.c0 = 255 ∧ c.c1 = 0 ∧ c.c2 = 0

/-- An enum-name oracle for which the SDK conversion always fails, so the
fallback labels of lines 209-212 are used. -/
def demoEnum : ℤ → Option String := fun _ => none

/-- A person detection at confidence 0.9 with a 4-corner box. -/
def demoObj : Detection := ⟨9/10, 0, [(0, 0), (2, 0), (2, 2), (0, 2)]⟩

/-- A detection at confidence exactly 0.5. -/
def demoHalf : Detection := ⟨1/2, 1, [(0, 0), (2, 0), (2, 2), (0, 2)]⟩

/-- A person detection at confidence 0.9 with an empty box list. -/
def demoNoBox : Detection := ⟨9/10, 0, []⟩

/-- The annotation `demoObj` produces. -/
def demoOp : DrawOp := ⟨(0, 0), (2, 2), ⟨0, 255, 0⟩, "Person", 9/10⟩

/-- A frame-data state holding one published cycle's result. -/
def demoFrameData : FrameData :=
  ⟨none, [("Person", PyVal.int 2)], "2024-12-09T20:30:45"⟩

/-- A loop state with an open camera and no recorded failures. -/
def demoLoopState : LoopState := ⟨true, 0, 0, ⟨none, [], ""⟩⟩

/-- An iteration input for a successful grab observed by one subscriber. -/
def demoInput : IterInput := ⟨false, true, 1, true, [demoObj], 7, "t1"⟩

/-- The accounting state after session 0 attaches. -/
def acctDemo1 : StreamAcct := ⟨1, {0}, ∅, 1, 0⟩

/-- The accounting state after session 0 attaches and then detaches. -/
def acctDemo2 : StreamAcct := ⟨0, ∅, {0}, 1, 1⟩

theorem runCycle_demo :
    runCycle demoEnum true [demoObj] = Except.ok ([("Person", 1)], [demoOp]) := by
  have hc : (1:ℚ)/2 < 9/10 := by norm_num
  have hc2 : (2:ℚ)⁻¹ < 9/10 := by norm_num
  have hcc : chooseColor "Person" = ⟨0, 255, 0⟩ := by decide
  have hp0 : pyInt 0 = 0 := by simp [pyInt]
  have hp2 : pyInt 2 = 2 := by simp [pyInt]
  simp [runCycle, processDetections, detectStep, demoObj, resolveLabel, demoEnum,
    dictSet, dictGet, pyIndex, hc, hc2, hcc, hp0, hp2, demoOp]

theorem acctStep_demo1 : AcctStep initAcct acctDemo1 :=
  AcctStep.attach initAcct acctDemo1 0 (by decide) (by decide) (by decide)

theorem acctStep_demo2 : AcctStep acctDemo1 acctDemo2 :=
  AcctStep.detach acctDemo1 acctDemo2 0 (by decide) (by decide)

theorem acctReach_demo2 : AcctReach acctDemo2 :=
  AcctReach.step (AcctReach.step AcctReach.init acctStep_demo1) acctStep_demo2

theorem acctReach_inv (σ : StreamAcct) (h : AcctReach σ) :
    σ.activeStreams = (σ.attached.card : ℤ)
    ∧ σ.nAttach = σ.attached.card + σ.finished.card
    ∧ σ.nDetach = σ.finished.card
    ∧ Disjoint σ.attached σ.finished := by
  induction h with
  | init => simp [initAcct]
  | step hreach hstep =>
      rename_i σ0 σ1 ih
      obtain ⟨hc, ha, hd, hdisj⟩ := ih
      cases hstep with
      | attach s h1 h2 heq =>
          subst heq
          refine ⟨?_, ?_, ?_, ?_⟩
          · simp only [attachOp, hc, Finset.card_insert_of_not_mem h1]
            push_cast
            ring
          · simp only [Finset.card_insert_of_not_mem h1]
            omega
          · exact hd
          · rw [Finset.disjoint_insert_left]
            exact ⟨h2, hdisj⟩
      | detach s hs heq =>
          subst heq
          have hcard : 1 ≤ σ0.attached.card := Finset.card_pos.mpr ⟨s, hs⟩
          have hsf : s ∉ σ0.finished := Finset.disjoint_left.mp hdisj hs
          refine ⟨?_, ?_, ?_, ?_⟩
          · simp only [detachOp, hc, Finset.card_erase_of_mem hs,
              Nat.cast_sub hcard]
            push_cast
            ring
          · simp only [Finset.card_erase_of_mem hs,
              Finset.card_insert_of_not_mem hsf]
            omega
          · simp only [Finset.card_insert_of_not_mem hsf]
            omega
          · rw [Finset.disjoint_insert_right]
            exact ⟨Finset.not_mem_erase s _,
              Finset.disjoint_of_subset_left (Finset.erase_subset _ _) hdisj⟩

theorem dictKeys_dictSet {α : Type} (m : List (String × α)) (k : String) (v : α)
    (l : String) : l ∈ dictKeys (dictSet m k v) ↔ l ∈ dictKeys m ∨ l = k := by
  induction m with
  | nil => simp [dictSet, dictKeys]
  | cons hd tl ih =>
      obtain ⟨k', v'⟩ := hd
      by_cases hk : k' = k
      · subst hk
        simp [dictSet, dictKeys]
        tauto
      · simp only [dictSet, if_neg hk, dictKeys, List.map_cons, List.mem_cons]
        rw [dictKeys] at ih
        rw [ih]
        tauto

theorem dictGet_dictSet_same {α : Type} (m : List (String × α)) (k : String)
    (v : α) (dflt : α) : dictGet (dictSet m k v) k dflt = v := by
  induction m with
  | nil => simp [dictSet, dictGet]
  | cons hd tl ih =>
      obtain ⟨k', v'⟩ := hd
      by_cases hk : k' = k
      · subst hk
        simp [dictSet, dictGet]
      · simp [dictSet, if_neg hk, dictGet, hk, ih]

theorem dictGet_dictSet_ne {α : Type} (m : List (String × α)) (k l : String)
    (v : α) (dflt : α) (h : l ≠ k) :
    dictGet (dictSet m k v) l dflt = dictGet m l dflt := by
  have hk' : k ≠ l := fun hkl => h hkl.symm
  induction m with
  | nil => simp [dictSet, dictGet, hk']
  | cons hd tl ih =>
      obtain ⟨k', v'⟩ := hd
      by_cases hk : k' = k
      · subst hk
        simp [dictSet, dictGet, hk']
      · simp [dictSet, if_neg hk, dictGet, ih]

theorem qualLabels_cons_pos (enumName : ℤ → Option String) (obj : Detection)
    (rest : List Detection) (hc : 1/2 < obj.confidence) :
    qualLabels enumName (obj :: rest) =
      resolveLabel enumName obj.rawLabel :: qualLabels enumName rest := by
  have hc' : (2:ℚ)⁻¹ < obj.confidence := by rwa [one_div] at hc
  simp [qualLabels, List.filter_cons, hc']

theorem qualLabels_cons_neg (enumName : ℤ → Option String) (obj : Detection)
    (rest : List Detection) (hc : ¬ 1/2 < obj.confidence) :
    qualLabels enumName (obj :: rest) = qualLabels enumName rest := by
  have hc' : ¬ (2:ℚ)⁻¹ < obj.confidence := by rwa [one_div] at hc
  simp [qualLabels, List.filter_cons, hc']

theorem detectStep_skip (enumName : ℤ → Option String)
    (acc : List (String × ℕ) × List DrawOp) (obj : Detection)
    (h : ¬ 1/2 < obj.confidence) : detectStep enumName acc obj = Except.ok acc := by
  simp only [detectStep, if_neg h]

theorem processDetections_append (enumName : ℤ → Option String)
    (l1 l2 : List Detection) (acc : List (String × ℕ) × List DrawOp) :
    processDetections enumName (l1 ++ l2) acc =
      match processDetections enumName l1 acc with
      | Except.ok acc' => processDetections enumName l2 acc'
      | Except.error e => Except.error e := by
  induction l1 generalizing acc with
  | nil => simp [processDetections]
  | cons obj rest ih =>
      simp only [List.cons_append, processDetections]
      cases detectStep enumName acc obj with
      | ok acc' => exact ih acc'
      | error e => rfl

theorem processDetections_keys (enumName : ℤ → Option String)
    (objs : List Detection) (acc pr : List (String × ℕ) × List DrawOp)
    (hok : processDetections enumName objs acc = Except.ok pr) :
    ∀ l ∈ dictKeys pr.1, l ∈ dictKeys acc.1 ∨ l ∈ qualLabels enumName objs := by
  induction objs generalizing acc with
  | nil =>
      simp only [processDetections, Except.ok.injEq] at hok
      subst hok
      intro l hl
      exact Or.inl hl
  | cons obj rest ih =>
      intro l hl
      simp only [processDetections] at hok
      by_cases hc : 1/2 < obj.confidence
      · simp only [detectStep, if_pos hc] at hok
        rw [qualLabels_cons_pos enumName obj rest hc]
        by_cases hb : 2 ≤ obj.bbox2d.length
        · simp only [if_pos hb] at hok
          cases h0 : pyIndex obj.bbox2d 0 with
          | error e => rw [h0] at hok; simp at hok
          | ok p0 =>
              cases h2 : pyIndex obj.bbox2d 2 with
              | error e => rw [h0, h2] at hok; simp at hok
              | ok p2 =>
                  rw [h0, h2] at hok
                  rcases ih _ hok l hl with hin | hin
                  · rcases (dictKeys_dictSet _ _ _ _).mp hin with hin' | hin'
                    · exact Or.inl hin'
                    · exact Or.inr (by simp [hin'])
                  · exact Or.inr (List.mem_cons_of_mem _ hin)
        · simp only [if_neg hb] at hok
          rcases ih _ hok l hl with hin | hin
          · rcases (dictKeys_dictSet _ _ _ _).mp hin with hin' | hin'
            · exact Or.inl hin'
            · exact Or.inr (by simp [hin'])
          · exact Or.inr (List.mem_cons_of_mem _ hin)
      · rw [detectStep_skip enumName acc obj hc] at hok
        rw [qualLabels_cons_neg enumName obj rest hc]
        exact ih _ hok l hl

theorem processDetections_pos (enumName : ℤ → Option String)
    (objs : List Detection) (acc pr : List (String × ℕ) × List DrawOp)
    (hacc : ∀ l ∈ dictKeys acc.1, 1 ≤ dictGet acc.1 l 0)
    (hok : processDetections enumName objs acc = Except.ok pr) :
    ∀ l ∈ dictKeys pr.1, 1 ≤ dictGet pr.1 l 0 := by
  induction objs generalizing acc with
  | nil =>
      simp only [processDetections, Except.ok.injEq] at hok
      subst hok
      exact hacc
  | cons obj rest ih =>
      simp only [processDetections] at hok
      by_cases hc : 1/2 < obj.confidence
      · have hstep : ∀ l ∈ dictKeys
            (dictSet acc.1 (resolveLabel enumName obj.rawLabel)
              (dictGet acc.1 (resolveLabel enumName obj.rawLabel) 0 + 1)), 1 ≤ dictGet
            (dictSet acc.1 (resolveLabel enumName obj.rawLabel)
              (dictGet acc.1 (resolveLabel enumName obj.rawLabel) 0 + 1)) l 0 := by
          intro l hl
          by_cases hlk : l = resolveLabel enumName obj.rawLabel
          · subst hlk
            rw [dictGet_dictSet_same]
            omega
          · rw [dictGet_dictSet_ne _ _ _ _ _ hlk]
            rcases (dictKeys_dictSet _ _ _ _).mp hl with hin | hin
            · exact hacc l hin
            · exact absurd hin hlk
        simp only [detectStep, if_pos hc] at hok
        by_cases hb : 2 ≤ obj.bbox2d.length
        · simp only [if_pos hb] at hok
          cases h0 : pyIndex obj.bbox2d 0 with
          | error e => rw [h0] at hok; simp at hok
          | ok p0 =>
              cases h2 : pyIndex obj.bbox2d 2 with
              | error e => rw [h0, h2] at hok; simp at hok
              | ok p2 =>
                  rw [h0, h2] at hok
                  exact ih _ hstep hok
        · simp only [if_neg hb] at hok
          exact ih _ hstep hok
      · rw [detectStep_skip enumName acc obj hc] at hok
        exact ih _ hacc hok

theorem processDetections_count (enumName : ℤ → Option String)
    (objs : List Detection) (acc pr : List (String × ℕ) × List DrawOp)
    (hok : processDetections enumName objs acc = Except.ok pr) (l : String) :
    dictGet pr.1 l 0 = dictGet acc.1 l 0 + (qualLabels enumName objs).count l := by
  induction objs generalizing acc with
  | nil =>
      simp only [processDetections, Except.ok.injEq] at hok
      subst hok
      simp [qualLabels]
  | cons obj rest ih =>
      simp only [processDetections] at hok
      by_cases hc : 1/2 < obj.confidence
      · have hstep :
            dictGet pr.1 l 0 =
              dictGet (dictSet acc.1 (resolveLabel enumName obj.rawLabel)
                (dictGet acc.1 (resolveLabel enumName obj.rawLabel) 0 + 1)) l 0 +
                (qualLabels enumName rest).count l →
            dictGet pr.1 l 0 =
              dictGet acc.1 l 0 + (qualLabels enumName (obj :: rest)).count l := by
          intro hrec
          rw [qualLabels_cons_pos enumName obj rest hc, List.count_cons]
          by_cases hlk : l = resolveLabel enumName obj.rawLabel
          · rw [hrec, hlk, dictGet_dictSet_same]
            simp
            omega
          · have hlk' : resolveLabel enumName obj.rawLabel ≠ l := fun h => hlk h.symm
            rw [hrec, dictGet_dictSet_ne _ _ _ _ _ hlk]
            simp [hlk']
        simp only [detectStep, if_pos hc] at hok
        by_cases hb : 2 ≤ obj.bbox2d.length
        · simp only [if_pos hb] at hok
          cases h0 : pyIndex obj.bbox2d 0 with
          | error e => rw [h0] at hok; simp at hok
          | ok p0 =>
              cases h2 : pyIndex obj.bbox2d 2 with
              | error e => rw [h0, h2] at hok; simp at hok
              | ok p2 =>
                  rw [h0, h2] at hok
                  exact hstep (ih _ hok)
        · simp only [if_neg hb] at hok
          exact hstep (ih _ hok)
      · rw [detectStep_skip enumName acc obj hc] at hok
        rw [qualLabels_cons_neg enumName obj rest hc]
        exact ih _ hok

theorem processDetections_drawn (enumName : ℤ → Option String)
    (objs : List Detection) (acc : List (String × ℕ) × List DrawOp)
    (hbox : ∀ o ∈ objs, 1/2 < o.confidence → 3 ≤ o.bbox2d.length) :
    ∃ pr, processDetections enumName objs acc = Except.ok pr ∧
      pr.2.map (fun op => op.labelText) =
        acc.2.map (fun op => op.labelText) ++ qualLabels enumName objs := by
  induction objs generalizing acc with
  | nil => exact ⟨acc, rfl, by simp [qualLabels]⟩
  | cons obj rest ih =>
      by_cases hc : 1/2 < obj.confidence
      · have hlen : 3 ≤ obj.bbox2d.length := hbox obj (List.mem_cons_self obj rest) hc
        have hb : 2 ≤ obj.bbox2d.length := by omega
        have h0 : ∃ p, obj.bbox2d.get? 0 = some p := by
          rw [List.get?_eq_getElem?]
          exact ⟨obj.bbox2d[0], by rw [List.getElem?_eq_getElem (by omega)]⟩
        have h2 : ∃ p, obj.bbox2d.get? 2 = some p := by
          rw [List.get?_eq_getElem?]
          exact ⟨obj.bbox2d[2], by rw [List.getElem?_eq_getElem (by omega)]⟩
        obtain ⟨p0, hp0⟩ := h0
        obtain ⟨p2, hp2⟩ := h2
        obtain ⟨pr, hpr, hmap⟩ := ih
          (dictSet acc.1 (resolveLabel enumName obj.rawLabel)
              (dictGet acc.1 (resolveLabel enumName obj.rawLabel) 0 + 1),
           acc.2 ++ [⟨(pyInt p0.1, pyInt p0.2), (pyInt p2.1, pyInt p2.2),
              chooseColor (resolveLabel enumName obj.rawLabel),
              resolveLabel enumName obj.rawLabel, obj.confidence⟩])
          (fun o ho hco => hbox o (List.mem_cons_of_mem _ ho) hco)
        refine ⟨pr, ?_, ?_⟩
        · simp only [processDetections, detectStep, if_pos hc, if_pos hb, pyIndex,
            hp0, hp2]
          exact hpr
        · rw [hmap, qualLabels_cons_pos enumName obj rest hc]
          simp
      · obtain ⟨pr, hpr, hmap⟩ := ih acc
          (fun o ho hco => hbox o (List.mem_cons_of_mem _ ho) hco)
        refine ⟨pr, ?_, ?_⟩
        · simp only [processDetections, detectStep_skip enumName acc obj hc]
          exact hpr
        · rw [hmap, qualLabels_cons_neg enumName obj rest hc]

theorem busInv_init : BusInv initBus := by
  refine ⟨?_, ?_, ?_, ?_, ?_, ?_, ?_⟩ <;> intro c <;> simp [initBus]

theorem busInv_step (σ : BusState) (a : Act) (h : BusInv σ) :
    BusInv (busStep σ a) := by
  obtain ⟨hsort, hle, hnlt, hale, halt, hnalt, hdet⟩ := h
  cases a with
  | attachC c =>
      simp only [busStep]
      by_cases hg : σ.phase c = Phase.detachedC
      · simp only [if_pos hg]
        refine ⟨hsort, hle, ?_, ?_, ?_, ?_, ?_⟩
        · intro d hd v hv
          by_cases hdc : d = c
          · subst hdc; simp [upd] at hd
          · simp only [upd, if_neg hdc] at hd
            exact hnlt d hd v hv
        · intro d
          by_cases hdc : d = c
          · subst hdc; simp [upd]
          · simp only [upd, if_neg hdc]
            exact hale d
        · intro d v hv
          by_cases hdc : d = c
          · subst hdc
            rw [hdet d hg] at hv
            exact absurd hv (List.not_mem_nil v)
          · simp only [upd, if_neg hdc]
            exact halt d v hv
        · intro d hd
          by_cases hdc : d = c
          · subst hdc; simp [upd] at hd
          · simp only [upd, if_neg hdc] at hd ⊢
            exact hnalt d hd
        · intro d hd
          by_cases hdc : d = c
          · subst hdc; simp [upd] at hd
          · simp only [upd, if_neg hdc] at hd
            exact hdet d hd
      · simp only [if_neg hg]
        exact ⟨hsort, hle, hnlt, hale, halt, hnalt, hdet⟩
  | beginWait c =>
      simp only [busStep]
      by_cases hg : σ.phase c = Phase.idle
      · simp only [if_pos hg]
        refine ⟨hsort, hle, ?_, hale, halt, ?_, ?_⟩
        · intro d hd v hv
          by_cases hdc : d = c
          · subst hdc; simp [upd] at hd
          · simp only [upd, if_neg hdc] at hd
            exact hnlt d hd v hv
        · intro d hd
          by_cases hdc : d = c
          · subst hdc; simp [upd] at hd
          · simp only [upd, if_neg hdc] at hd
            exact hnalt d hd
        · intro d hd
          by_cases hdc : d = c
          · subst hdc; simp [upd] at hd
          · simp only [upd, if_neg hdc] at hd
            exact hdet d hd
      · simp only [if_neg hg]
        exact ⟨hsort, hle, hnlt, hale, halt, hnalt, hdet⟩
  | publishA =>
      simp only [busStep]
      refine ⟨hsort, ?_, ?_, ?_, halt, ?_, ?_⟩
      · intro d v hv
        exact Nat.le_trans (hle d v hv) (Nat.le_succ _)
      · intro d hd v hv
        by_cases hw : σ.phase d = Phase.waiting
        · exact Nat.lt_succ_of_le (hle d v hv)
        · simp only [if_neg hw] at hd
          exact Nat.lt_succ_of_lt (hnlt d hd v hv)
      · intro d
        exact Nat.le_trans (hale d) (Nat.le_succ _)
      · intro d hd
        by_cases hw : σ.phase d = Phase.waiting
        · exact Nat.lt_succ_of_le (hale d)
        · simp only [if_neg hw] at hd
          exact Nat.lt_succ_of_lt (hnalt d hd)
      · intro d hd
        by_cases hw : σ.phase d = Phase.waiting
        · simp only [if_pos hw] at hd
          exact absurd hd (by simp)
        · simp only [if_neg hw] at hd
          exact hdet d hd
  | wakeC c =>
      simp only [busStep]
      by_cases hg : σ.phase c = Phase.notified
      · simp only [if_pos hg]
        refine ⟨?_, ?_, ?_, hale, ?_, ?_, ?_⟩
        · intro d
          by_cases hdc : d = c
          · subst hdc
            have hupd : upd σ.observedRev d (σ.version :: σ.observedRev d) d =
                σ.version :: σ.observedRev d := by simp [upd]
            dsimp only
            rw [hupd, List.sorted_cons]
            exact ⟨fun b hb => hnlt d hg b hb, hsort d⟩
          · simp only [upd, if_neg hdc]
            exact hsort d
        · intro d v hv
          by_cases hdc : d = c
          · subst hdc
            have hupd : upd σ.observedRev d (σ.version :: σ.observedRev d) d =
                σ.version :: σ.observedRev d := by simp [upd]
            dsimp only at hv ⊢
            rw [hupd, List.mem_cons] at hv
            rcases hv with rfl | hv
            · exact Nat.le_refl _
            · exact hle d v hv
          · simp only [upd, if_neg hdc] at hv
            exact hle d v hv
        · intro d hd v hv
          by_cases hdc : d = c
          · subst hdc; simp [upd] at hd
          · simp only [upd, if_neg hdc] at hd hv
            exact hnlt d hd v hv
        · intro d v hv
          by_cases hdc : d = c
          · subst hdc
            have hupd : upd σ.observedRev d (σ.version :: σ.observedRev d) d =
                σ.version :: σ.observedRev d := by simp [upd]
            dsimp only at hv ⊢
            rw [hupd, List.mem_cons] at hv
            rcases hv with rfl | hv
            · exact hnalt d hg
            · exact halt d v hv
          · simp only [upd, if_neg hdc] at hv
            exact halt d v hv
        · intro d hd
          by_cases hdc : d = c
          · subst hdc; simp [upd] at hd
          · simp only [upd, if_neg hdc] at hd
            exact hnalt d hd
        · intro d hd
          by_cases hdc : d = c
          · subst hdc; simp [upd] at hd
          · simp only [upd, if_neg hdc] at hd ⊢
            exact hdet d hd
      · simp only [if_neg hg]
        exact ⟨hsort, hle, hnlt, hale, halt, hnalt, hdet⟩

theorem busInv_run (acts : List Act) (σ : BusState) (h : BusInv σ) :
    BusInv (busRun σ acts) := by
  induction acts generalizing σ with
  | nil => exact h
  | cons a rest ih =>
      rw [busRun, List.foldl_cons]
      exact ih (busStep σ a) (busInv_step σ a h)

theorem waitRel_step (V : ℕ) (base : List ℕ) (c : ℕ) (σ : BusState) (a : Act)
    (h : WaitRel V base c σ) : WaitRel V base c (busStep σ a) := by
  obtain ⟨hV, ⟨pre, hpre, hgt⟩, hnot⟩ := h
  cases a with
  | attachC d =>
      simp only [busStep]
      by_cases hg : σ.phase d = Phase.detachedC
      · simp only [if_pos hg]
        refine ⟨hV, ⟨pre, hpre, hgt⟩, ?_⟩
        intro hd
        by_cases hdc : c = d
        · subst hdc; simp [upd] at hd
        · simp only [upd, if_neg hdc] at hd
          exact hnot hd
      · simp only [if_neg hg]
        exact ⟨hV, ⟨pre, hpre, hgt⟩, hnot⟩
  | beginWait d =>
      simp only [busStep]
      by_cases hg : σ.phase d = Phase.idle
      · simp only [if_pos hg]
        refine ⟨hV, ⟨pre, hpre, hgt⟩, ?_⟩
        intro hd
        by_cases hdc : c = d
        · subst hdc; simp [upd] at hd
        · simp only [upd, if_neg hdc] at hd
          exact hnot hd
      · simp only [if_neg hg]
        exact ⟨hV, ⟨pre, hpre, hgt⟩, hnot⟩
  | publishA =>
      simp only [busStep]
      refine ⟨Nat.le_trans hV (Nat.le_succ _), ⟨pre, hpre, hgt⟩, ?_⟩
      intro _
      by_cases hw : σ.phase c = Phase.waiting
      · exact Nat.lt_succ_of_le hV
      · by_cases hn : σ.phase c = Phase.notified
        · exact Nat.lt_succ_of_lt (hnot hn)
        · exact Nat.lt_succ_of_le hV
  | wakeC d =>
      simp only [busStep]
      by_cases hg : σ.phase d = Phase.notified
      · simp only [if_pos hg]
        by_cases hdc : c = d
        · subst hdc
          refine ⟨hV, ⟨σ.version :: pre, ?_, ?_⟩, ?_⟩
          · simp [upd, hpre]
          · intro v hv
            rcases List.mem_cons.mp hv with rfl | hv
            · exact hnot hg
            · exact hgt v hv
          · intro hd; simp [upd] at hd
        · refine ⟨hV, ⟨pre, ?_, hgt⟩, ?_⟩
          · simp only [upd, if_neg hdc]
            exact hpre
          · intro hd
            simp only [upd, if_neg hdc] at hd
            exact hnot hd
      · simp only [if_neg hg]
        exact ⟨hV, ⟨pre, hpre, hgt⟩, hnot⟩

theorem waitRel_run (V : ℕ) (base : List ℕ) (c : ℕ) (σ : BusState)
    (acts : List Act) (h : WaitRel V base c σ) :
    WaitRel V base c (busRun σ acts) := by
  induction acts generalizing σ with
  | nil => exact h
  | cons a rest ih =>
      rw [busRun, List.foldl_cons]
      exact ih (busStep σ a) (waitRel_step V base c σ a h)

theorem waitRel_self (σ : BusState) (c : ℕ) (hw : σ.phase c = Phase.waiting) :
    WaitRel σ.version (σ.observedRev c) c σ := by
  refine ⟨Nat.le_refl _, ⟨[], by simp, by simp⟩, ?_⟩
  rw [hw]
  intro h
  cases h

theorem grabPhase_bus (enumName : ℤ → Option String) (st : LoopState)
    (inp : IterInput) (st' : LoopState) (evs : List Event)
    (heq : grabPhase enumName st inp = (st', evs)) :
    st'.bus = st.bus ∨
      ∃ counts ops, runCycle enumName inp.isNew inp.objs = Except.ok (counts, ops)
        ∧ st'.bus = ⟨some ⟨inp.rawImage, ops⟩,
            counts.map (fun p => (p.1, PyVal.int (p.2 : ℤ))), inp.timestamp⟩ := by
  cases hg : inp.grabOk with
  | false =>
      by_cases h10 : 10 ≤ st.consecutiveFailures + 1
      · simp only [grabPhase, hg, Bool.false_eq_true, if_false, if_pos h10,
          Prod.mk.injEq] at heq
        left
        rw [← heq.1]
      · simp only [grabPhase, hg, Bool.false_eq_true, if_false, if_neg h10,
          Prod.mk.injEq] at heq
        left
        rw [← heq.1]
  | true =>
      cases hr : runCycle enumName inp.isNew inp.objs with
      | ok pr =>
          obtain ⟨counts, ops⟩ := pr
          right
          refine ⟨counts, ops, rfl, ?_⟩
          simp only [grabPhase, hg, if_true, hr, Prod.mk.injEq] at heq
          rw [← heq.1]
      | error e =>
          simp only [grabPhase, hg, if_true, hr, Prod.mk.injEq] at heq
          left
          rw [← heq.1]

theorem runFails_state (enumName : ℤ → Option String) (st : LoopState) (n : ℕ)
    (hopen : st.cameraOpen = true) (hn : st.consecutiveFailures + n ≤ 9) :
    runFails enumName st n =
      ({st with consecutiveFailures := st.consecutiveFailures + n},
       List.replicate n (Event.sleepSec (1/10))) := by
  induction n generalizing st with
  | zero => simp [runFails]
  | succ n ih =>
      have hlt : ¬ 10 ≤ st.consecutiveFailures + 1 := by omega
      have hstep : loopIter enumName st failInput =
          ({st with consecutiveFailures := st.consecutiveFailures + 1},
           [Event.sleepSec (1/10)]) := by
        simp [loopIter, grabPhase, failInput, hopen, hlt]
      have harith : st.consecutiveFailures + 1 + n =
          st.consecutiveFailures + (n + 1) := by omega
      simp only [runFails, hstep]
      rw [ih {st with consecutiveFailures := st.consecutiveFailures + 1}
        (by simpa using hopen) (by simp; omega)]
      simp [harith, List.replicate_succ]

theorem runFails_add (enumName : ℤ → Option String) (st : LoopState) (m n : ℕ) :
    runFails enumName st (m + n) =
      ((runFails enumName (runFails enumName st m).1 n).1,
       (runFails enumName st m).2 ++ (runFails enumName (runFails enumName st m).1 n).2) := by
  induction m generalizing st with
  | zero => simp [runFails, Nat.zero_add]
  | succ m ih =>
      have hmn : m + 1 + n = (m + n) + 1 := by omega
      rw [hmn]
      simp only [runFails]
      rw [ih]
      simp only [runFails, List.append_assoc]

/-! ## Claim theorems -/

/-- C4: for every capture cycle, the counts map of the published snapshot
contains only labels that had at least one detection with confidence
strictly greater than 0.5 in that cycle, and a detection with confidence
exactly 0.5 contributes neither to counts nor to the annotated image (the
whole cycle output is unchanged by removing it). -/
theorem zed_C4 :
    (∀ (enumName : ℤ → Option String) (isNew : Bool) (objs : List Detection)
        (counts : List (String × ℕ)) (ops : List DrawOp),
        runCycle enumName isNew objs = Except.ok (counts, ops) →
        ∀ l ∈ dictKeys counts,
          ∃ o ∈ objs, 1/2 < o.confidence ∧ resolveLabel enumName o.rawLabel = l)
    ∧ (∀ (enumName : ℤ → Option String) (isNew : Bool)
        (pre post : List Detection) (d : Detection), d.confidence = 1/2 →
        runCycle enumName isNew (pre ++ d :: post) =
          runCycle enumName isNew (pre ++ post)) := by
  constructor
  · intro enumName isNew objs counts ops hok l hl
    cases isNew with
    | false =>
        simp only [runCycle, Bool.false_eq_true, if_false, Except.ok.injEq,
          Prod.mk.injEq] at hok
        rw [← hok.1] at hl
        simp [dictKeys] at hl
    | true =>
        simp only [runCycle, if_true] at hok
        rcases processDetections_keys enumName objs ([], []) (counts, ops) hok l hl
          with hin | hin
        · simp [dictKeys] at hin
        · simp only [qualLabels, List.mem_map, List.mem_filter,
            decide_eq_true_eq] at hin
          obtain ⟨o, ⟨ho, hc⟩, hres⟩ := hin
          exact ⟨o, ho, hc, hres⟩
  · intro enumName isNew pre post d hconf
    have hd : ¬ (1/2 : ℚ) < d.confidence := by
      rw [hconf]
      exact lt_irrefl _
    cases isNew with
    | false => simp [runCycle]
    | true =>
        simp only [runCycle, if_true]
        rw [processDetections_append, processDetections_append]
        cases hp : processDetections enumName pre ([], []) with
        | error e => rfl
        | ok a =>
            show processDetections enumName (d :: post) a =
              processDetections enumName post a
            simp only [processDetections, detectStep_skip enumName a d hd]

/-- Witness for C4 at a concrete cycle: one person detection at confidence
0.9 and one detection at confidence exactly 0.5. -/
theorem zed_C4_witness :
    (∃ o ∈ [demoObj], 1/2 < o.confidence ∧
        resolveLabel demoEnum o.rawLabel = "Person")
    ∧ runCycle demoEnum true ([demoObj] ++ demoHalf :: []) =
        runCycle demoEnum true ([demoObj] ++ []) :=
  ⟨zed_C4.1 demoEnum true [demoObj] [("Person", 1)] [demoOp] runCycle_demo
      "Person" (by simp [dictKeys]),
   zed_C4.2 demoEnum true [demoObj] [] demoHalf (by simp [demoHalf])⟩

/-- C10: every label present in a published counts map has a value of at
least 1 (labels with no qualifying detection are absent, not mapped to 0),
and the published events of a successful capture iteration are independent
of the prior loop state, so counts are built fresh each cycle and never
accumulate. -/
theorem zed_C10 :
    (∀ (enumName : ℤ → Option String) (isNew : Bool) (objs : List Detection)
        (counts : List (String × ℕ)) (ops : List DrawOp),
        runCycle enumName isNew objs = Except.ok (counts, ops) →
        ∀ l ∈ dictKeys counts, 1 ≤ dictGet counts l 0)
    ∧ (∀ (enumName : ℤ → Option String) (st1 st2 : LoopState) (inp : IterInput),
        st1.cameraOpen = true → st2.cameraOpen = true → inp.grabOk = true →
        (loopIter enumName st1 inp).2 = (loopIter enumName st2 inp).2) := by
  constructor
  · intro enumName isNew objs counts ops hok l hl
    cases isNew with
    | false =>
        simp only [runCycle, Bool.false_eq_true, if_false, Except.ok.injEq,
          Prod.mk.injEq] at hok
        rw [← hok.1] at hl
        simp [dictKeys] at hl
    | true =>
        simp only [runCycle, if_true] at hok
        exact processDetections_pos enumName objs ([], []) (counts, ops)
          (by simp [dictKeys]) hok l hl
  · intro enumName st1 st2 inp h1 h2 hg
    cases hr : runCycle enumName inp.isNew inp.objs with
    | ok pr =>
        obtain ⟨counts, ops⟩ := pr
        simp [loopIter, grabPhase, h1, h2, hg, hr]
    | error e =>
        simp [loopIter, grabPhase, h1, h2, hg, hr]

/-- Witness for C10 at a concrete cycle and two distinct prior states. -/
theorem zed_C10_witness :
    (∀ l ∈ dictKeys [("Person", 1)], 1 ≤ dictGet [("Person", 1)] l 0)
    ∧ (loopIter demoEnum demoLoopState demoInput).2 =
        (loopIter demoEnum ⟨true, 3, 99, demoFrameData⟩ demoInput).2 :=
  ⟨zed_C10.1 demoEnum true [demoObj] [("Person", 1)] [demoOp] runCycle_demo,
   zed_C10.2 demoEnum demoLoopState ⟨true, 3, 99, demoFrameData⟩ demoInput
     rfl rfl rfl⟩

/-- C7 (code bug): the color policy of lines 217-223 chooses the tuple
`(0,255,0)` for person-like labels, `(255,0,0)` for vehicle-like labels and
`(0,0,255)` otherwise, but the frame the tuples are drawn on is in BGR
channel order (line 188), so a "Vehicle" box renders pure blue (blue
channel 255, red channel 0) and an unrecognized label renders pure red —
the opposite of the claim and of the source's own inline comments
(`# Red`, `# Blue`).  Person boxes render green as claimed. -/
theorem zed_C7_bug :
    isGreen (chooseColor "Person")
    ∧ isBlue (chooseColor "Vehicle") ∧ ¬ isRed (chooseColor "Vehicle")
    ∧ isRed (chooseColor "Forklift") ∧ ¬ isBlue (chooseColor "Forklift") := by
  unfold isGreen isBlue isRed
  refine ⟨?_, ?_, ?_, ?_, ?_⟩ <;> decide

/-- C6 (code bug): the `/metrics` handler of lines 386-389 aliases the
stored counts dict (`response = frame_data.get('counts', {})`) and then
writes a `timestamp` key through the alias, mutating the shared FrameBus
state: after one request the stored counts dict has gained a `"timestamp"`
entry, so the state is not identical before and after the request. -/
theorem zed_C6_bug :
    (metricsHandler demoFrameData).1.counts =
      [("Person", PyVal.int 2),
       ("timestamp", PyVal.str "2024-12-09T20:30:45")]
    ∧ (metricsHandler demoFrameData).1 ≠ demoFrameData
    ∧ (metricsHandler demoFrameData).2 =
      [("Person", PyVal.int 2),
       ("timestamp", PyVal.str "2024-12-09T20:30:45")] := by
  refine ⟨?_, ?_, ?_⟩ <;> decide

/-- C5: in every capture-loop iteration that publishes, the emitted events
are exactly one sleep followed by the publish, and the sleep duration is
chosen from the subscriber count read that cycle: 0.1s when at least one
subscriber is attached, 0.5s when none is. -/
theorem zed_C5 (enumName : ℤ → Option String) (st : LoopState) (inp : IterInput)
    (counts : List (String × ℕ)) (ops : List DrawOp)
    (hopen : st.cameraOpen = true) (hgrab : inp.grabOk = true)
    (hok : runCycle enumName inp.isNew inp.objs = Except.ok (counts, ops)) :
    (loopIter enumName st inp).2 =
      [Event.sleepSec (if 0 < inp.activeStreams then 1/10 else 1/2),
       Event.publish ⟨inp.rawImage, ops⟩ counts inp.timestamp] := by
  simp [loopIter, grabPhase, hopen, hgrab, hok]

/-- Witness for C5 at a concrete publishing iteration with one subscriber. -/
theorem zed_C5_witness :
    (loopIter demoEnum demoLoopState demoInput).2 =
      [Event.sleepSec (if 0 < demoInput.activeStreams then 1/10 else 1/2),
       Event.publish ⟨demoInput.rawImage, [demoOp]⟩ [("Person", 1)]
         demoInput.timestamp] :=
  zed_C5 demoEnum demoLoopState demoInput [("Person", 1)] [demoOp]
    rfl rfl (by simpa [demoInput] using runCycle_demo)

/-- C8: snapshot internal consistency.  First conjunct: for any cycle whose
detections all carry the SDK's 4-corner bounding boxes (the spec's data
model), processing succeeds and the annotations drawn are exactly the
qualifying detections, in order, while the counts map gives each label
exactly the number of drawn annotations bearing it — the counted set and
the drawn set coincide.  Second conjunct: a loop iteration either leaves
the shared frame/counts pair untouched or replaces it atomically with the
frame and counts of one and the same cycle, so no reader under the lock
can observe a mixed pair. -/
theorem zed_C8 :
    (∀ (enumName : ℤ → Option String) (objs : List Detection),
        (∀ o ∈ objs, o.bbox2d.length = 4) →
        ∃ counts ops, processDetections enumName objs ([], []) = Except.ok (counts, ops)
          ∧ ops.map (fun op => op.labelText) = qualLabels enumName objs
          ∧ ∀ l, dictGet counts l 0 = (qualLabels enumName objs).count l)
    ∧ (∀ (enumName : ℤ → Option String) (st st' : LoopState) (inp : IterInput)
        (evs : List Event), loopIter enumName st inp = (st', evs) →
        st'.bus = st.bus ∨
          ∃ counts ops,
            runCycle enumName inp.isNew inp.objs = Except.ok (counts, ops)
            ∧ st'.bus = ⟨some ⟨inp.rawImage, ops⟩,
                counts.map (fun p => (p.1, PyVal.int (p.2 : ℤ))), inp.timestamp⟩) := by
  constructor
  · intro enumName objs hbox
    obtain ⟨pr, hpr, hmap⟩ := processDetections_drawn enumName objs ([], [])
      (fun o ho _ => by rw [hbox o ho]; omega)
    obtain ⟨counts, ops⟩ := pr
    refine ⟨counts, ops, hpr, by simpa using hmap, fun l => ?_⟩
    have hcount := processDetections_count enumName objs ([], []) (counts, ops) hpr l
    simpa [dictGet] using hcount
  · intro enumName st st' inp evs heq
    cases hcam : st.cameraOpen with
    | true =>
        rw [loopIter, if_pos hcam] at heq
        exact grabPhase_bus enumName st inp st' evs heq
    | false =>
        cases hinit : inp.initOk with
        | false =>
            simp only [loopIter, hcam, Bool.false_eq_true, if_false, hinit,
              Prod.mk.injEq] at heq
            left
            rw [← heq.1]
        | true =>
            simp only [loopIter, hcam, Bool.false_eq_true, if_false, hinit,
              if_true] at heq
            have hgb := grabPhase_bus enumName
              { st with cameraOpen := true, consecutiveFailures := 0 } inp
              (grabPhase enumName
                { st with cameraOpen := true, consecutiveFailures := 0 } inp).1
              (grabPhase enumName
                { st with cameraOpen := true, consecutiveFailures := 0 } inp).2
              rfl
            have hst' : st' = (grabPhase enumName
                { st with cameraOpen := true, consecutiveFailures := 0 } inp).1 := by
              have := congrArg Prod.fst heq
              simpa using this.symm
            rw [hst']
            simpa using hgb

/-- Witness for C8 at a concrete cycle with one 4-corner person detection
and a concrete publishing loop iteration. -/
theorem zed_C8_witness :
    (∃ counts ops,
        processDetections demoEnum [demoObj] ([], []) = Except.ok (counts, ops)
        ∧ ops.map (fun op => op.labelText) = qualLabels demoEnum [demoObj]
        ∧ ∀ l, dictGet counts l 0 = (qualLabels demoEnum [demoObj]).count l)
    ∧ ((loopIter demoEnum demoLoopState demoInput).1.bus = demoLoopState.bus ∨
       ∃ counts ops,
          runCycle demoEnum demoInput.isNew demoInput.objs = Except.ok (counts, ops)
          ∧ (loopIter demoEnum demoLoopState demoInput).1.bus =
              ⟨some ⟨demoInput.rawImage, ops⟩,
                counts.map (fun p => (p.1, PyVal.int (p.2 : ℤ))),
                demoInput.timestamp⟩) :=
  ⟨zed_C8.1 demoEnum [demoObj] (by decide),
   zed_C8.2 demoEnum demoLoopState (loopIter demoEnum demoLoopState demoInput).1
     demoInput (loopIter demoEnum demoLoopState demoInput).2 rfl⟩

/-- C3: every successful grab resets the consecutive-failure counter to 0
from any ready loop state, whatever value the counter holds — also
mid-failure-streak (first conjunct, quantified over an arbitrary state);
and from a ready camera with a clean counter, nine consecutive failures
leave the camera open with the counter at 9 and no close, while the tenth
consecutive failure closes the camera exactly once, resets the counter,
and is followed immediately by the 1-second cooldown, the iteration after
which begins with the reconnect `open()` attempt (and no further close). -/
theorem zed_C3 (enumName : ℤ → Option String) (st : LoopState)
    (hopen : st.cameraOpen = true) (hcf : st.consecutiveFailures = 0) :
    (∀ (stAny : LoopState) (inp : IterInput), stAny.cameraOpen = true →
        inp.grabOk = true →
        ((loopIter enumName stAny inp).1).consecutiveFailures = 0)
    ∧ (runFails enumName st 9).1.cameraOpen = true
    ∧ (runFails enumName st 9).1.consecutiveFailures = 9
    ∧ Event.closeCam ∉ (runFails enumName st 9).2
    ∧ (runFails enumName st 10).1.cameraOpen = false
    ∧ (runFails enumName st 10).1.consecutiveFailures = 0
    ∧ (runFails enumName st 10).2
        = List.replicate 9 (Event.sleepSec (1/10)) ++ [Event.closeCam, Event.sleepSec 1]
    ∧ (runFails enumName st 10).2.count Event.closeCam = 1
    ∧ loopIter enumName (runFails enumName st 10).1 failInput
        = ((runFails enumName st 10).1, [Event.openAttempt, Event.sleepSec 5]) := by
  have h9 : runFails enumName st 9 =
      ({st with consecutiveFailures := 9}, List.replicate 9 (Event.sleepSec (1/10))) := by
    have h := runFails_state enumName st 9 hopen (by omega)
    rw [hcf] at h
    simpa using h
  have hstep10 : loopIter enumName {st with consecutiveFailures := 9} failInput =
      ({st with cameraOpen := false, consecutiveFailures := 0},
       [Event.closeCam, Event.sleepSec 1]) := by
    simp [loopIter, grabPhase, failInput, hopen]
  have h10 : runFails enumName st 10 =
      ({st with cameraOpen := false, consecutiveFailures := 0},
       List.replicate 9 (Event.sleepSec (1/10)) ++ [Event.closeCam, Event.sleepSec 1]) := by
    have h91 : (10:ℕ) = 9 + 1 := by norm_num
    rw [h91, runFails_add enumName st 9 1, h9]
    simp [runFails, hstep10]
  refine ⟨?_, ?_, ?_, ?_, ?_, ?_, ?_, ?_, ?_⟩
  · intro stAny inp hopenAny hg
    cases hr : runCycle enumName inp.isNew inp.objs with
    | ok pr =>
        obtain ⟨counts, ops⟩ := pr
        simp [loopIter, grabPhase, hopenAny, hg, hr]
    | error e =>
        simp [loopIter, grabPhase, hopenAny, hg, hr]
  · rw [h9]
    simpa using hopen
  · rw [h9]
  · rw [h9]
    simp [List.mem_replicate]
  · rw [h10]
  · rw [h10]
  · rw [h10]
  · rw [h10]
    have hnot : Event.closeCam ∉ List.replicate 9 (Event.sleepSec (1/10)) := by
      simp [List.mem_replicate]
    simp [List.count_append, List.count_eq_zero_of_not_mem hnot, List.count_cons]
  · rw [h10]
    simp [loopIter, failInput]

/-- Witness for C3: the reset conjunct instantiated at a mid-streak ready
state whose failure counter stands at 7, plus the failure-streak conjuncts
at the concrete clean ready state. -/
theorem zed_C3_witness :
    ((loopIter demoEnum ⟨true, 7, 42, demoFrameData⟩ demoInput).1).consecutiveFailures = 0
    ∧ (runFails demoEnum demoLoopState 9).1.cameraOpen = true
    ∧ (runFails demoEnum demoLoopState 9).1.consecutiveFailures = 9
    ∧ Event.closeCam ∉ (runFails demoEnum demoLoopState 9).2
    ∧ (runFails demoEnum demoLoopState 10).1.cameraOpen = false
    ∧ (runFails demoEnum demoLoopState 10).1.consecutiveFailures = 0
    ∧ (runFails demoEnum demoLoopState 10).2
        = List.replicate 9 (Event.sleepSec (1/10)) ++ [Event.closeCam, Event.sleepSec 1]
    ∧ (runFails demoEnum demoLoopState 10).2.count Event.closeCam = 1
    ∧ loopIter demoEnum (runFails demoEnum demoLoopState 10).1 failInput
        = ((runFails demoEnum demoLoopState 10).1,
           [Event.openAttempt, Event.sleepSec 5]) :=
  ⟨(zed_C3 demoEnum demoLoopState rfl rfl).1 ⟨true, 7, 42, demoFrameData⟩
      demoInput rfl rfl,
   (zed_C3 demoEnum demoLoopState rfl rfl).2⟩

/-- C1 counterexample: the claim additionally demands that a stray
double-detach must not drive the count below zero, but `detach` is the bare
decrement `active_streams -= 1` of line 340 with no clamping: starting from
the initial count 0, one attach followed by two detaches leaves the count
at -1, strictly below zero. -/
theorem zed_C1_counterexample :
    detachOp (detachOp (attachOp 0)) = -1
    ∧ detachOp (detachOp (attachOp 0)) < 0 := by
  constructor <;> decide

/-- C1 amended: in every execution the attach of lines 308-310 is paired
with exactly one detach on every exit path (the `finally:` of lines
337-341 runs exactly once per generator), so over all interleavings of
well-formed session lifecycles the subscriber count equals the number of
attaches minus the number of detaches and never goes negative.  (The
tolerance of a stray double-detach demanded by the claim does not hold —
see the counterexample — but the code never performs one.) -/
theorem zed_C1_amended (σ : StreamAcct) (h : AcctReach σ) :
    σ.activeStreams = (σ.nAttach : ℤ) - (σ.nDetach : ℤ)
    ∧ 0 ≤ σ.activeStreams := by
  obtain ⟨hc, ha, hd, _⟩ := acctReach_inv σ h
  constructor
  · rw [hc, ha, hd]
    push_cast
    ring
  · rw [hc]
    exact Nat.cast_nonneg _

/-- Witness for C1 at the reachable state in which session 0 has attached
and then detached. -/
theorem zed_C1_witness :
    acctDemo2.activeStreams = (acctDemo2.nAttach : ℤ) - (acctDemo2.nDetach : ℤ)
    ∧ 0 ≤ acctDemo2.activeStreams :=
  zed_C1_amended acctDemo2 acctReach_demo2

/-- C9 counterexample: the claim says any emission or encoding failure on a
single frame causes only that frame to be skipped and that the session loop
exits only on a transport disconnect, but an `Exception` raised inside the
loop body (e.g. `cv2.imencode` raising instead of returning `ret=False`)
is caught at line 333 and `break`s out of the loop at line 336, ending the
whole session — and that outcome is not a transport disconnect. -/
theorem zed_C9_counterexample :
    (sessionRun [SessionOutcome.raisedException]).2
      = some SessionOutcome.raisedException
    ∧ SessionOutcome.raisedException ≠ SessionOutcome.clientDisconnected := by
  constructor <;> decide

/-- C9 amended: an encoding failure signalled by `cv2.imencode` returning a
false flag — and likewise a `None` frame — skips exactly that frame and the
session continues as if the pass had not happened; a successful encode
emits one chunk and continues; an exception raised inside the loop body
ends the session, as does a transport disconnect.  The session's behavior
is a function of its own outcomes alone (`sessionRun`), so a failure in one
session cannot affect another session or the producer. -/
theorem zed_C9_amended (rest : List SessionOutcome) :
    sessionRun (SessionOutcome.encodeRetFalse :: rest) = sessionRun rest
    ∧ sessionRun (SessionOutcome.frameNone :: rest) = sessionRun rest
    ∧ sessionRun (SessionOutcome.encodeOk :: rest)
        = (1 + (sessionRun rest).1, (sessionRun rest).2)
    ∧ sessionRun (SessionOutcome.raisedException :: rest)
        = (0, some SessionOutcome.raisedException)
    ∧ sessionRun (SessionOutcome.clientDisconnected :: rest)
        = (0, some SessionOutcome.clientDisconnected) := by
  refine ⟨?_, ?_, ?_, ?_, ?_⟩ <;> simp [sessionRun, sessionIterResult]

/-- C2 counterexample: consumer 0 attaches and is waiting when snapshot 1
is published; before it reacquires the lock the producer publishes snapshot
2; on waking, the consumer reads the then-current `frame_data` and so
observes snapshot 2 without ever observing snapshot 1 — refuting the claim
that every consumer pending at a publish observes that exact snapshot
before any later one. -/
theorem zed_C2_counterexample :
    (busRun initBus [Act.attachC 0, Act.beginWait 0]).phase 0 = Phase.waiting
    ∧ (busRun initBus [Act.attachC 0, Act.beginWait 0, Act.publishA]).version = 1
    ∧ (busRun initBus [Act.attachC 0, Act.beginWait 0, Act.publishA, Act.publishA,
        Act.wakeC 0]).observedRev 0 = [2]
    ∧ 1 ∉ (busRun initBus [Act.attachC 0, Act.beginWait 0, Act.publishA,
        Act.publishA, Act.wakeC 0]).observedRev 0 := by
  refine ⟨?_, ?_, ?_, ?_⟩ <;> decide

/-- C2 amended: a consumer pending at a publish observes, as its next
observation, that snapshot or a later one — every snapshot it observes
after it began waiting was published strictly after the wait began (first
conjunct); no consumer ever observes snapshots out of capture order (the
newest-first observation list is strictly decreasing, second conjunct); and
a consumer that attaches mid-cycle observes only snapshots published after
its attach (third conjunct). -/
theorem zed_C2_amended (acts more : List Act) (c v : ℕ)
    (hw : (busRun initBus acts).phase c = Phase.waiting)
    (hv : v ∈ (busRun initBus (acts ++ more)).observedRev c)
    (hnew : v ∉ (busRun initBus acts).observedRev c) :
    (busRun initBus acts).version < v
    ∧ List.Sorted (· > ·) ((busRun initBus (acts ++ more)).observedRev c)
    ∧ ∀ w ∈ (busRun initBus (acts ++ more)).observedRev c,
        (busRun initBus (acts ++ more)).attachVersion c < w := by
  have hsplit : busRun initBus (acts ++ more) = busRun (busRun initBus acts) more := by
    simp [busRun, List.foldl_append]
  have hinv := busInv_run (acts ++ more) initBus busInv_init
  have hrel := waitRel_run (busRun initBus acts).version
    ((busRun initBus acts).observedRev c) c (busRun initBus acts) more
    (waitRel_self (busRun initBus acts) c hw)
  refine ⟨?_, hinv.sortedObs c, fun w hwm => hinv.attachLtObs c w hwm⟩
  obtain ⟨hV, ⟨pre, hpre, hgt⟩, _⟩ := hrel
  rw [hsplit, hpre] at hv
  rcases List.mem_append.mp hv with hp | hb
  · exact hgt v hp
  · exact absurd hb hnew

/-- Witness for C2: consumer 0 waits, one publish happens, it wakes and
observes snapshot 1 — published after its wait began, in order, and after
its attach. -/
theorem zed_C2_witness :
    (busRun initBus [Act.attachC 0, Act.beginWait 0]).version < 1
    ∧ List.Sorted (· > ·)
        ((busRun initBus ([Act.attachC 0, Act.beginWait 0]
          ++ [Act.publishA, Act.wakeC 0])).observedRev 0)
    ∧ ∀ w ∈ (busRun initBus ([Act.attachC 0, Act.beginWait 0]
          ++ [Act.publishA, Act.wakeC 0])).observedRev 0,
        (busRun initBus ([Act.attachC 0, Act.beginWait 0]
          ++ [Act.publishA, Act.wakeC 0])).attachVersion 0 < w :=
  zed_C2_amended [Act.attachC 0, Act.beginWait 0] [Act.publishA, Act.wakeC 0] 0 1
    (by decide) (by decide) (by decide)

end ZedApp
